import Mathlib

/-!
Shallow embedding of the `napi` command-line client (src/napi.py): a JSON
value model, the credential resolver `get_api_key`, the page fetcher
`get_page`, the pagination loop of `main`, and the output writer
(`json.dump` with `indent=4, ensure_ascii=False`), together with theorems
about the specified behaviour.

Modelling conventions:
- Python dicts are association lists in insertion order (`Params`);
  `setKey` follows Python assignment (update in place, else append).
- JSON numbers are integers (`Int`); the program never manufactures
  non-integer numbers itself and no property under study involves floats.
- The HTTP layer is a parameter `send : Params → Response`; `main`'s
  unbounded `while True` loop takes a fuel argument, `none` standing for a
  run that has not terminated within the fuel.
- Exceptions are `Except Err`; the abstract error names follow the spec's
  taxonomy (`missingCredential` for the TypeError raised by
  `get_api_key`, `invalidPath` for the FileNotFoundError of the
  pre-flight check, `malformedResponse` for KeyError/TypeError while
  digging into a response body, `httpError` for `raise_for_status`).
-/

set_option maxHeartbeats 1000000

namespace Napi

/-- JSON values.  Numbers are modelled as integers: page counts are the only
numbers the program inspects, and article records are opaque.  Object fields
are kept in insertion order, as Python dicts do. -/
inductive Json where
  | null
  | bool (b : Bool)
  | num (n : Int)
  | str (s : String)
  | arr (items : List Json)
  | obj (fields : List (String × Json))

/-- Spec error taxonomy (section 7 of the design document). -/
inductive Err where
  | missingCredential
  | invalidPath
  | malformedQueryFile
  | httpError (status : Nat)
  | malformedResponse
deriving DecidableEq

/-- A Python dict with string keys, in insertion order. -/
abbrev Params := List (String × Json)

/-- Dict lookup: first (and by construction only) binding of the key. -/
def lookupKey : Params → String → Option Json
  | [], _ => none
  | (k', v) :: rest, k => if k' = k then some v else lookupKey rest k

/-- Python dict assignment `d[k] = v`: update in place if the key exists,
otherwise append at the end. -/
def setKey : Params → String → Json → Params
  | [], k, v => [(k, v)]
  | (k', v') :: rest, k, v =>
      if k' = k then (k, v) :: rest else (k', v') :: setKey rest k v

/-- Python truthiness of an optional string: `None` and `""` are falsy. -/
def truthy : Option String → Bool
  | some s => s ≠ ""
  | none => false

/-- Embeds `get_api_key` (src/napi.py lines 39-66).  `envKey` is the value
of `NEWSAPI_API_KEY` in the process environment, `dotenvFileKey` the value
the local `.env` file holds for it (if any).  `load_dotenv()` is modelled
with its default `override=False` semantics: a key already present in the
process environment — even one set to the empty string — is NOT replaced by
the `.env` value, so after loading, `os.getenv` still returns the process
value whenever one exists. -/
def get_api_key (argsApiKey envKey dotenvFileKey : Option String) :
    Except Err String :=
  if truthy argsApiKey then .ok (argsApiKey.getD "")
  else if truthy envKey then .ok (envKey.getD "")
  else
    let afterLoadDotenv : Option String :=
      match envKey with
      | some v => some v
      | none => dotenvFileKey
    if truthy afterLoadDotenv then .ok (afterLoadDotenv.getD "")
    else .error .missingCredential

/-- An HTTP response: status code plus JSON body (the program always calls
`r.json()`; a non-JSON body would be yet another `malformedResponse`-class
failure and no claim depends on it). -/
structure Response where
  status : Nat
  body : Json

/-- `requests.Response.raise_for_status` raises for 4xx and 5xx codes. -/
def isErrorStatus (s : Nat) : Bool := 400 ≤ s && s < 600

/-- Field access `j[k]` on a JSON value: `some` only when `j` is an object
containing the key.  Python raises KeyError (missing key) or TypeError
(non-dict) otherwise; both collapse to `none` here. -/
def getField (j : Json) (k : String) : Option Json :=
  match j with
  | .obj fields => lookupKey fields k
  | _ => none

/-- Embeds `get_page` (src/napi.py lines 69-91).  The function first mutates
the shared dict (`query_params["articlesPage"] = page`), then posts it,
then checks the status, then reads `r.json()["articles"]` and returns that
value raw — its internal structure is not validated here.  The returned
`Params` is the dict after the mutation. -/
def get_page (send : Params → Response) (query_params : Params) (page : Int) :
    Params × Except Err Json :=
  let ps := setKey query_params "articlesPage" (.num page)
  let r := send ps
  if isErrorStatus r.status then (ps, .error (.httpError r.status))
  else
    match getField r.body "articles" with
    | some data => (ps, .ok data)
    | none => (ps, .error .malformedResponse)

/-- Observable effects of a run, in order. -/
inductive Event where
  | resolveCredential
  | readQueryFile
  | httpRequest (page : Int)
  | writeOutput
deriving DecidableEq

/-- Integer check for the `pages` value read from a response body. -/
def asInt : Json → Option Int
  | .num n => some n
  | _ => none

/-- Array check for the `results` value read from a response body. -/
def asArr : Json → Option (List Json)
  | .arr xs => some xs
  | _ => none

/-- Embeds the `while True` pagination loop of `main` (src/napi.py lines
116-144).  Per iteration: break when `page > 1 and page > num_pages`;
otherwise call `get_page` (recording the request event whether or not it
succeeds), set `num_pages` from `data["pages"]`, extend the accumulator
with `data["results"]`, and increment `page`.  A missing or non-integer
`pages`, or missing or non-array `results`, aborts with
`malformedResponse` (in Python: KeyError at the subscript, or TypeError at
the later comparison/extend; the observable trace — one more request, then
abort before any write — is the same).  `none` means the fuel ran out
before the loop terminated. -/
def fetchLoop (send : Params → Response) :
    Nat → Int → Int → Params → List Json → List Event →
    Option (Params × List Event × Except Err (List Json))
  | 0, _, _, _, _, _ => none
  | fuel + 1, page, numPages, ps, acc, evs =>
    if page > 1 ∧ page > numPages then some (ps, evs, .ok acc)
    else
      let step := get_page send ps page
      let evs' := evs ++ [Event.httpRequest page]
      match step.2 with
      | .error e => some (step.1, evs', .error e)
      | .ok data =>
        match getField data "pages" with
        | none => some (step.1, evs', .error .malformedResponse)
        | some pagesJson =>
          match asInt pagesJson with
          | none => some (step.1, evs', .error .malformedResponse)
          | some newNumPages =>
            match getField data "results" with
            | none => some (step.1, evs', .error .malformedResponse)
            | some resultsJson =>
              match asArr resultsJson with
              | none => some (step.1, evs', .error .malformedResponse)
              | some results =>
                fetchLoop send fuel (page + 1) newNumPages step.1
                  (acc ++ results) evs'

/-! ### The output writer: `json.dump(all_articles, f, indent=4, ensure_ascii=False)`

The renderer below reproduces CPython's `json` serializer for this option
set: four-space indentation, item separator `",\n" + indent`, key separator
`": "`, empty containers rendered with no inner whitespace, `"` and `\`
and the control characters escaped (`\b \f \n \r \t`, else `\u00xx` with
lowercase hex), every other character — in particular all non-ASCII —
emitted literally. -/

/-- Opening brace character. -/
def obrace : Char := '\x7b'

/-- Closing brace character. -/
def cbrace : Char := '\x7d'

/-- Lowercase hexadecimal digit characters. -/
def hexDigitChar : Nat → Char
  | 0 => '0' | 1 => '1' | 2 => '2' | 3 => '3' | 4 => '4'
  | 5 => '5' | 6 => '6' | 7 => '7' | 8 => '8' | 9 => '9'
  | 10 => 'a' | 11 => 'b' | 12 => 'c' | 13 => 'd' | 14 => 'e'
  | _ => 'f'

/-- JSON string escaping with `ensure_ascii=False`: only `"`, `\` and the
C0 control characters are escaped; everything else is literal. -/
def escapeChar (c : Char) : List Char :=
  if c = '"' then ['\\', '"']
  else if c = '\\' then ['\\', '\\']
  else if c = Char.ofNat 8 then ['\\', 'b']
  else if c = Char.ofNat 12 then ['\\', 'f']
  else if c = '\n' then ['\\', 'n']
  else if c = '\r' then ['\\', 'r']
  else if c = '\t' then ['\\', 't']
  else if c.toNat < 32 then
    let code := c.toNat
    '\\' :: 'u' :: '0' :: '0' :: hexDigitChar (code / 16) ::
      [hexDigitChar (code % 16)]
  else [c]

/-- Escape a whole character sequence. -/
def escapeList (cs : List Char) : List Char := (cs.map escapeChar).flatten

/-- A rendered JSON string literal. -/
def renderString (s : String) : List Char := '"' :: escapeList s.data ++ ['"']

/-- Decimal digits of a natural number, as Python's `repr(int)` writes them. -/
def natToChars (n : Nat) : List Char :=
  if _h : n < 10 then [hexDigitChar n]
  else natToChars (n / 10) ++ [hexDigitChar (n % 10)]
termination_by n
decreasing_by exact Nat.div_lt_self (by omega) (by omega)

/-- Decimal rendering of an integer. -/
def intToChars (n : Int) : List Char :=
  if n < 0 then '-' :: natToChars (-n).toNat else natToChars n.toNat

/-- The given number of space characters. -/
def spaces : Nat → List Char
  | 0 => []
  | n + 1 => ' ' :: spaces n

mutual

/-- Render a JSON value at the given indentation level, exactly as
`json.dump` with `indent=4, ensure_ascii=False` lays it out. -/
def render (ind : Nat) (j : Json) : List Char :=
  match j with
  | .null => "null".data
  | .bool true => "true".data
  | .bool false => "false".data
  | .num n => intToChars n
  | .str s => renderString s
  | .arr [] => ['[', ']']
  | .arr (x :: xs) =>
      '[' :: '\n' :: spaces ((ind + 1) * 4) ++ renderItems (ind + 1) x xs
        ++ '\n' :: spaces (ind * 4) ++ [']']
  | .obj [] => [obrace, cbrace]
  | .obj ((k, v) :: kvs) =>
      obrace :: '\n' :: spaces ((ind + 1) * 4) ++ renderFields (ind + 1) k v kvs
        ++ '\n' :: spaces (ind * 4) ++ [cbrace]
termination_by sizeOf j

/-- Render a nonempty comma-separated run of array items. -/
def renderItems (ind : Nat) (x : Json) (xs : List Json) : List Char :=
  match xs with
  | [] => render ind x
  | y :: ys =>
      render ind x ++ ',' :: '\n' :: spaces (ind * 4) ++ renderItems ind y ys
termination_by 1 + sizeOf x + sizeOf xs

/-- Render a nonempty comma-separated run of object fields. -/
def renderFields (ind : Nat) (k : String) (v : Json)
    (kvs : List (String × Json)) : List Char :=
  match kvs with
  | [] => renderString k ++ ':' :: ' ' :: render ind v
  | (k2, v2) :: rest =>
      renderString k ++ ':' :: ' ' :: render ind v
        ++ ',' :: '\n' :: spaces (ind * 4) ++ renderFields ind k2 v2 rest
termination_by 1 + sizeOf v + sizeOf kvs

end

/-- The exact file content `main` writes for an accumulator. -/
def dumps (v : Json) : String := String.mk (render 0 v)

/-! ### A JSON reader, for the write-then-read-back round trip

A standard recursive-descent JSON parser over characters, tolerant of
whitespace around structural tokens, decoding the same escape sequences
`json.loads` does.  A fuel argument (decremented at every nested parse)
makes it total; the top-level wrapper supplies one unit of fuel per input
character, which is always sufficient since every nested parse consumes at
least one character. -/

/-- JSON insignificant whitespace. -/
def isWsChar (c : Char) : Bool := c = ' ' || c = '\n' || c = '\t' || c = '\r'

/-- Drop leading whitespace. -/
def skipWs : List Char → List Char
  | [] => []
  | c :: cs => if isWsChar c then skipWs cs else c :: cs

/-- Value of a hexadecimal digit character. -/
def hexVal (c : Char) : Option Nat :=
  if c.isDigit then some (c.toNat - 48)
  else if 'a' ≤ c && c ≤ 'f' then some (c.toNat - 87)
  else if 'A' ≤ c && c ≤ 'F' then some (c.toNat - 55)
  else none

/-- Decode a single-character escape (everything except `\uXXXX`). -/
def unescape (c : Char) : Option Char :=
  if c = '"' then some '"'
  else if c = '\\' then some '\\'
  else if c = '/' then some '/'
  else if c = 'b' then some (Char.ofNat 8)
  else if c = 'f' then some (Char.ofNat 12)
  else if c = 'n' then some '\n'
  else if c = 'r' then some '\r'
  else if c = 't' then some '\t'
  else none

/-- Parse the body of a string literal (the opening quote already
consumed), returning the decoded characters and the input after the
closing quote. -/
def parseStringBody : List Char → Option (List Char × List Char)
  | [] => none
  | c :: cs =>
    if c = '"' then some ([], cs)
    else if c = '\\' then
      match cs with
      | [] => none
      | e :: cs2 =>
        if e = 'u' then
          match cs2 with
          | h1 :: h2 :: h3 :: h4 :: cs3 =>
            match hexVal h1, hexVal h2, hexVal h3, hexVal h4 with
            | some a, some b, some c3, some d =>
              (parseStringBody cs3).map fun p =>
                (Char.ofNat (((a * 16 + b) * 16 + c3) * 16 + d) :: p.1, p.2)
            | _, _, _, _ => none
          | _ => none
        else
          match unescape e with
          | some d => (parseStringBody cs2).map fun p => (d :: p.1, p.2)
          | none => none
    else (parseStringBody cs).map fun p => (c :: p.1, p.2)

/-- Consume a run of decimal digits, folding them onto an accumulator. -/
def parseDigitsAcc : List Char → Nat → Nat × List Char
  | [], acc => (acc, [])
  | c :: cs, acc =>
    if c.isDigit then parseDigitsAcc cs (acc * 10 + (c.toNat - 48))
    else (acc, c :: cs)

/-- Parse one or more decimal digits. -/
def parsePosNumber : List Char → Option (Nat × List Char)
  | [] => none
  | c :: cs =>
    if c.isDigit then some (parseDigitsAcc cs (c.toNat - 48)) else none

/-- Parse an optionally negated decimal integer. -/
def parseNumber (cs : List Char) : Option (Int × List Char) :=
  match cs with
  | [] => none
  | c :: cs2 =>
    if c = '-' then (parsePosNumber cs2).map fun p => (-(p.1 : Int), p.2)
    else (parsePosNumber (c :: cs2)).map fun p => ((p.1 : Int), p.2)

mutual

/-- Parse one JSON value, skipping leading whitespace. -/
def parseVal : Nat → List Char → Option (Json × List Char)
  | 0, _ => none
  | fuel + 1, cs =>
    match skipWs cs with
    | [] => none
    | c :: cs2 =>
      if c = 'n' then
        match cs2 with
        | 'u' :: 'l' :: 'l' :: rest => some (.null, rest)
        | _ => none
      else if c = 't' then
        match cs2 with
        | 'r' :: 'u' :: 'e' :: rest => some (.bool true, rest)
        | _ => none
      else if c = 'f' then
        match cs2 with
        | 'a' :: 'l' :: 's' :: 'e' :: rest => some (.bool false, rest)
        | _ => none
      else if c = '"' then
        (parseStringBody cs2).map fun p => (.str (String.mk p.1), p.2)
      else if c = '[' then
        match skipWs cs2 with
        | [] => none
        | d :: rest =>
          if d = ']' then some (.arr [], rest)
          else (parseItems fuel (d :: rest)).map fun p => (.arr p.1, p.2)
      else if c = obrace then
        match skipWs cs2 with
        | [] => none
        | d :: rest =>
          if d = cbrace then some (.obj [], rest)
          else (parseFields fuel (d :: rest)).map fun p => (.obj p.1, p.2)
      else
        (parseNumber (c :: cs2)).map fun p => (.num p.1, p.2)

/-- Parse one or more comma-separated items followed by `]`. -/
def parseItems : Nat → List Char → Option (List Json × List Char)
  | 0, _ => none
  | fuel + 1, cs =>
    match parseVal fuel cs with
    | none => none
    | some (v, r) =>
      match skipWs r with
      | [] => none
      | d :: r2 =>
        if d = ',' then
          match parseItems fuel (skipWs r2) with
          | none => none
          | some (vs, r3) => some (v :: vs, r3)
        else if d = ']' then some ([v], r2)
        else none

/-- Parse one or more comma-separated `"key": value` fields followed by
the closing brace. -/
def parseFields : Nat → List Char →
    Option (List (String × Json) × List Char)
  | 0, _ => none
  | fuel + 1, cs =>
    match cs with
    | [] => none
    | c :: cs2 =>
      if c = '"' then
        match parseStringBody cs2 with
        | none => none
        | some (kcs, r1) =>
          match skipWs r1 with
          | [] => none
          | d1 :: r2 =>
            if d1 = ':' then
              match parseVal fuel (skipWs r2) with
              | none => none
              | some (v, r3) =>
                match skipWs r3 with
                | [] => none
                | d :: r4 =>
                  if d = ',' then
                    match parseFields fuel (skipWs r4) with
                    | none => none
                    | some (kvs, r5) => some ((String.mk kcs, v) :: kvs, r5)
                  else if d = cbrace then some ([(String.mk kcs, v)], r4)
                  else none
            else none
      else none

end

/-- The reader: parse a whole string as one JSON document, requiring only
whitespace after the value, as `json.loads` does. -/
def parseJson (s : String) : Option Json :=
  match parseVal (s.data.length + 1) s.data with
  | some (v, rest) => if skipWs rest = [] then some v else none
  | none => none

/-- Everything outside the program that determines one run of `main`:
the three credential sources, whether the output path's parent directory
exists, the parsed query file (`.error` for an unreadable or unparseable
file, collapsed into one step), the HTTP layer, loop fuel, and the content
already sitting at the output path (if any). -/
structure Input where
  argsApiKey : Option String
  envKey : Option String
  dotenvFileKey : Option String
  parentExists : Bool
  queryParams : Except Err Params
  send : Params → Response
  fuel : Nat
  oldFile : Option String

/-- The observable outcome of one run of `main`: the Python-level result
(the final accumulator, or the exception that aborted the run), the
ordered effect trace, and the content of the output path afterwards. -/
structure Run where
  result : Except Err (List Json)
  events : List Event
  file : Option String

/-- Embeds `main` (src/napi.py lines 94-147), in the source's order:
(1) `if not out_path.parent.exists(): raise FileNotFoundError` — before
anything else; (2) `get_api_key`; (3) read and parse the query file;
(4) `query_params["apiKey"] = API_KEY`; (5) the pagination loop starting
from `page = 1`, `num_pages = 0`, `all_articles = []`; (6) on normal loop
exit only, `open(path, "w")` — truncating any previous content — and
`json.dump(all_articles, f, indent=4, ensure_ascii=False)`. -/
def mainRun (inp : Input) : Option Run :=
  if inp.parentExists = false then
    some { result := .error .invalidPath, events := [], file := inp.oldFile }
  else
    match get_api_key inp.argsApiKey inp.envKey inp.dotenvFileKey with
    | .error e =>
        some { result := .error e, events := [.resolveCredential],
               file := inp.oldFile }
    | .ok key =>
      match inp.queryParams with
      | .error e =>
          some { result := .error e,
                 events := [.resolveCredential, .readQueryFile],
                 file := inp.oldFile }
      | .ok qp =>
        let ps0 := setKey qp "apiKey" (.str key)
        match fetchLoop inp.send inp.fuel 1 0 ps0 [] [] with
        | none => none
        | some (_, evs, .error e) =>
            some { result := .error e,
                   events := [.resolveCredential, .readQueryFile] ++ evs,
                   file := inp.oldFile }
        | some (_, evs, .ok arts) =>
            some { result := .ok arts,
                   events := [.resolveCredential, .readQueryFile] ++ evs
                     ++ [.writeOutput],
                   file := some (dumps (.arr arts)) }

/-! ### Statement helpers and concrete data -/

/-- The credential-resolution rule exactly as claim C2 words it: the
explicit argument if it is a non-empty string; otherwise the process
environment variable if set (to anything, including the empty string);
otherwise the environment-file value if present; otherwise failure. -/
def get_api_key_claimed (argsApiKey envKey dotenvFileKey : Option String) :
    Except Err String :=
  if truthy argsApiKey then .ok (argsApiKey.getD "")
  else
    match envKey with
    | some v => .ok v
    | none =>
      match dotenvFileKey with
      | some v => .ok v
      | none => .error .missingCredential

/-- The resolution rule the code actually implements: explicit argument if
non-empty; else the environment variable if set to a non-empty value; else
— only when the environment variable is entirely unset — the
environment-file value if non-empty; else `missingCredential`. -/
def get_api_key_amended (argsApiKey envKey dotenvFileKey : Option String) :
    Except Err String :=
  if truthy argsApiKey then .ok (argsApiKey.getD "")
  else if truthy envKey then .ok (envKey.getD "")
  else if envKey = none ∧ truthy dotenvFileKey then .ok (dotenvFileKey.getD "")
  else .error .missingCredential

/-- The trace of `count` consecutive page requests starting at `start`. -/
def httpEvents (start : Int) : Nat → List Event
  | 0 => []
  | count + 1 => .httpRequest start :: httpEvents (start + 1) count

/-- The concatenation, in page order, of the per-page result lists for
`count` consecutive pages starting at page `start`. -/
def pagesConcat (rs : Nat → List Json) (start : Nat) : Nat → List Json
  | 0 => []
  | count + 1 => rs start ++ pagesConcat rs (start + 1) count

/-- Whether a character sequence does not begin with a decimal digit (so a
number parse that stops in front of it loses nothing). -/
def noDigitHead : List Char → Prop
  | [] => True
  | c :: _ => c.isDigit = false

mutual

/-- Parser fuel sufficient for one value (one unit per nested parse call). -/
def fuelV : Json → Nat
  | .null => 1
  | .bool _ => 1
  | .num _ => 1
  | .str _ => 1
  | .arr [] => 1
  | .arr (x :: xs) => 1 + fuelItems x xs
  | .obj [] => 1
  | .obj ((_, v) :: kvs) => 1 + fuelFields v kvs
termination_by j => sizeOf j

/-- Parser fuel sufficient for a nonempty item list. -/
def fuelItems (x : Json) (xs : List Json) : Nat :=
  match xs with
  | [] => 1 + fuelV x
  | y :: ys => 1 + fuelV x + fuelItems y ys
termination_by 1 + sizeOf x + sizeOf xs

/-- Parser fuel sufficient for a nonempty field list. -/
def fuelFields (v : Json) (kvs : List (String × Json)) : Nat :=
  match kvs with
  | [] => 1 + fuelV v
  | (_, v2) :: rest => 1 + fuelV v + fuelFields v2 rest
termination_by 1 + sizeOf v + sizeOf kvs

end

/-- An HTTP layer that always reports a client error. -/
def send404 : Params → Response := fun _ => { status := 404, body := .null }

/-- An HTTP layer whose `articles` field is present but is a bare number —
structurally incompatible with `{results, pages}`. -/
def send42 : Params → Response :=
  fun _ => { status := 200, body := .obj [("articles", .num 42)] }

/-- An HTTP layer whose `articles` object has `results` but no `pages`. -/
def sendNoPages : Params → Response :=
  fun _ =>
    { status := 200,
      body := .obj [("articles", .obj [("results", .arr [.str "r"])])] }

/-- The page number a request carries, as the mocked servers read it. -/
def pageOf (ps : Params) : Int :=
  match lookupKey ps "articlesPage" with
  | some (.num p) => p
  | _ => 0

/-- Mocked per-page records: page 1 holds `{"title": "A"}`, every other
page `{"title": "B"}`. -/
def rsAt (p : Int) : List Json :=
  [.obj [("title", .str (if p = 1 then "A" else "B"))]]

/-- A mocked server consistently reporting `pages = 2`. -/
def sendTwoPages : Params → Response := fun ps =>
  { status := 200,
    body := .obj [("articles",
      .obj [("results", .arr (rsAt (pageOf ps))), ("pages", .num 2)])] }

/-- A mocked server reporting `pages = 0` on every request. -/
def sendZeroPages : Params → Response := fun ps =>
  { status := 200,
    body := .obj [("articles",
      .obj [("results", .arr (rsAt (pageOf ps))), ("pages", .num 0)])] }

/-- A run input whose output directory is missing. -/
def inputNoParent : Input :=
  { argsApiKey := some "k", envKey := none, dotenvFileKey := none,
    parentExists := false, queryParams := .ok [("keyword", .str "x")],
    send := sendTwoPages, fuel := 5, oldFile := some "stale" }

/-- A run input whose first fetch fails with HTTP 404. -/
def input404 : Input :=
  { argsApiKey := some "k", envKey := none, dotenvFileKey := none,
    parentExists := true, queryParams := .ok [("keyword", .str "x")],
    send := send404, fuel := 5, oldFile := some "stale" }

/-- A run input that succeeds after two consistent pages. -/
def inputTwoPages : Input :=
  { argsApiKey := some "k", envKey := none, dotenvFileKey := none,
    parentExists := true, queryParams := .ok [("keyword", .str "x")],
    send := sendTwoPages, fuel := 5, oldFile := some "stale" }

/-! ### Dictionary lemmas -/

theorem lookupKey_setKey_self (ps : Params) (k : String) (v : Json) :
    lookupKey (setKey ps k v) k = some v := by
  induction ps with
  | nil => simp [setKey, lookupKey]
  | cons kv rest ih =>
    obtain ⟨k', v'⟩ := kv
    by_cases h : k' = k
    · simp [setKey, h, lookupKey]
    · simp [setKey, h, lookupKey, ih]

theorem lookupKey_setKey_other (ps : Params) (k k2 : String) (v : Json)
    (h : k2 ≠ k) : lookupKey (setKey ps k v) k2 = lookupKey ps k2 := by
  have h' : ¬k = k2 := fun hh => h hh.symm
  induction ps with
  | nil => simp [setKey, lookupKey, h']
  | cons kv rest ih =>
    obtain ⟨k', v'⟩ := kv
    by_cases hk : k' = k
    · subst hk
      simp [setKey, lookupKey, h']
    · simp only [setKey, if_neg hk, lookupKey]
      by_cases hk2 : k' = k2 <;> simp [hk2, ih]

/-- In every branch, the dict `get_page` hands back is the input dict with
`articlesPage` set to the requested page. -/
theorem get_page_fst (send : Params → Response) (ps : Params) (p : Int) :
    (get_page send ps p).1 = setKey ps "articlesPage" (.num p) := by
  simp only [get_page]
  split
  · rfl
  · split <;> rfl

/-! ### C2 — credential resolution -/

/-- C2 counterexample: with no argument, the environment variable set to
the empty string, and an environment file holding a key, the code raises
`missingCredential` — the claimed resolution order instead yields a
success (the set-but-empty environment value under the claim's
"environment variable if set"; even reading "set" as "set and non-empty",
the claim's fall-through to the file value would yield `ok "filekey"`).
The divergence exists because `load_dotenv` never overrides a variable
that is already present, even as the empty string. -/
theorem get_api_key_claim_counterexample :
    get_api_key none (some "") (some "filekey") = .error .missingCredential ∧
    get_api_key_claimed none (some "") (some "filekey") = .ok "" := by
  constructor <;> rfl

/-- C2 (amended): resolution returns the explicit argument if non-empty;
otherwise the environment variable if set to a non-empty value; otherwise
— only when the environment variable is entirely unset — the
environment-file value if non-empty; and fails with `missingCredential`
in every remaining case. -/
theorem get_api_key_resolution (argsApiKey envKey dotenvFileKey : Option String) :
    get_api_key argsApiKey envKey dotenvFileKey =
      get_api_key_amended argsApiKey envKey dotenvFileKey := by
  cases envKey <;> cases dotenvFileKey <;>
    simp [get_api_key, get_api_key_amended, truthy] <;>
    split_ifs <;> simp_all

/-! ### C9, C10 — the fetcher's effect on the shared parameters -/

/-- C9: a `get_page` call changes exactly the `articlesPage` key of the
shared dict, setting it to the requested page (the request itself is sent
with that dict, so the mutation precedes the send); every other key maps
to the same value afterwards as before. -/
theorem get_page_frame (send : Params → Response) (ps : Params) (p : Int)
    (k : String) (hk : k ≠ "articlesPage") :
    lookupKey (get_page send ps p).1 k = lookupKey ps k ∧
    lookupKey (get_page send ps p).1 "articlesPage" = some (.num p) := by
  rw [get_page_fst]
  exact ⟨lookupKey_setKey_other ps _ k _ hk, lookupKey_setKey_self ps _ _⟩

theorem get_page_frame_witness :
    ("apiKey" : String) ≠ "articlesPage" ∧
    lookupKey (get_page send404 [("apiKey", Json.str "k")] 3).1 "apiKey" =
      some (.str "k") ∧
    lookupKey (get_page send404 [("apiKey", Json.str "k")] 3).1
      "articlesPage" = some (.num 3) := by
  refine ⟨by decide, ?_, ?_⟩
  · exact ((get_page_frame send404 [("apiKey", Json.str "k")] 3 "apiKey"
      (by decide)).1).trans rfl
  · exact (get_page_frame send404 [("apiKey", Json.str "k")] 3 "apiKey"
      (by decide)).2

/-- C10: when `get_page` fails — bad status or missing `articles` — the
`articlesPage := p` mutation has already happened and persists in the
dict it hands back; it is not rolled back. -/
theorem get_page_mutation_persists (send : Params → Response) (ps : Params)
    (p : Int) (e : Err) (_hfail : (get_page send ps p).2 = .error e) :
    lookupKey (get_page send ps p).1 "articlesPage" = some (.num p) := by
  rw [get_page_fst]
  exact lookupKey_setKey_self ps _ _

theorem get_page_mutation_persists_witness :
    (get_page send404 [] 1).2 = .error (.httpError 404) ∧
    lookupKey (get_page send404 [] 1).1 "articlesPage" = some (.num 1) :=
  ⟨rfl, get_page_mutation_persists send404 [] 1 (.httpError 404) rfl⟩

/-! ### C4 — the fetcher's error contract -/

/-- C4 counterexample: with a success status and a body whose `articles`
field is present but structurally incompatible (a bare number), `get_page`
does NOT raise `MalformedResponse` — it returns the raw value unchecked,
contradicting the claim's "raises MalformedResponse if and only if the
articles field is absent or structurally incompatible" (and it plainly
does not return "that field's results sequence and pages integer"). -/
theorem get_page_incompatible_articles_ok :
    (get_page send42 [] 1).2 = .ok (.num 42) := rfl

/-- C4 (amended): `get_page` raises `HttpError` if and only if the response
status indicates failure (one request, no retry); on a success status it
raises `MalformedResponse` if and only if the body has no `articles`
field; otherwise it returns the `articles` field's raw value — the
`results`/`pages` structure is not validated here but by the caller. -/
theorem get_page_contract (send : Params → Response) (ps : Params) (p : Int) :
    ((∃ s, (get_page send ps p).2 = .error (.httpError s)) ↔
      isErrorStatus (send (setKey ps "articlesPage" (.num p))).status = true) ∧
    (isErrorStatus (send (setKey ps "articlesPage" (.num p))).status = false →
      ((get_page send ps p).2 = .error .malformedResponse ↔
        getField (send (setKey ps "articlesPage" (.num p))).body "articles"
          = none) ∧
      ∀ v, getField (send (setKey ps "articlesPage" (.num p))).body "articles"
          = some v → (get_page send ps p).2 = .ok v) := by
  by_cases hstat :
      isErrorStatus (send (setKey ps "articlesPage" (.num p))).status = true
  · refine ⟨⟨fun _ => hstat,
      fun _ => ⟨(send (setKey ps "articlesPage" (Json.num p))).status, ?_⟩⟩,
      fun hfalse => absurd hstat (by simp [hfalse])⟩
    simp [get_page, hstat]
  · simp only [Bool.not_eq_true] at hstat
    refine ⟨?_, fun _ => ?_⟩
    · simp only [get_page, hstat, Bool.false_eq_true, if_false]
      cases hgf : getField (send (setKey ps "articlesPage" (.num p))).body
          "articles" <;> simp [hgf, hstat]
    · constructor
      · simp only [get_page, hstat, Bool.false_eq_true, if_false]
        cases hgf : getField (send (setKey ps "articlesPage" (.num p))).body
            "articles" <;> simp [hgf]
      · intro v hv
        simp [get_page, hstat, hv]

theorem get_page_contract_witness :
    (∃ s, (get_page send404 [] 1).2 = .error (.httpError s)) ∧
    (get_page sendNoPages [] 1).2 = .ok (.obj [("results", .arr [.str "r"])]) :=
  ⟨(get_page_contract send404 [] 1).1.mpr rfl,
   ((get_page_contract sendNoPages [] 1).2 rfl).2 _ rfl⟩

/-! ### C5 — pre-flight output-path validation -/

/-- C5: when the output path's parent directory does not exist, the run
fails with `invalidPath` and its effect trace is empty — no credential
resolution, no query-file read, no HTTP request — and the output path's
previous content (if any) is untouched. -/
theorem preflight_invalid_path (inp : Input) (h : inp.parentExists = false) :
    mainRun inp =
      some { result := .error .invalidPath, events := [], file := inp.oldFile } := by
  simp [mainRun, h]

theorem preflight_invalid_path_witness :
    inputNoParent.parentExists = false ∧
    mainRun inputNoParent =
      some { result := .error .invalidPath, events := [],
             file := some "stale" } :=
  ⟨rfl, preflight_invalid_path inputNoParent rfl⟩

/-! ### Pagination-loop lemmas -/

/-- One loop iteration whose break test fails and whose fetch and field
extractions succeed steps to the next page. -/
theorem fetchLoop_step_ok (send : Params → Response) (fuel : Nat)
    (page numPages pg : Int) (ps : Params) (acc res : List Json)
    (evs : List Event) (a : Json)
    (hbreak : ¬(page > 1 ∧ page > numPages))
    (hstat : isErrorStatus (send (setKey ps "articlesPage" (.num page))).status
      = false)
    (ha : getField (send (setKey ps "articlesPage" (.num page))).body
      "articles" = some a)
    (hp : getField a "pages" = some (.num pg))
    (hr : getField a "results" = some (.arr res)) :
    fetchLoop send (fuel + 1) page numPages ps acc evs =
      fetchLoop send fuel (page + 1) pg (setKey ps "articlesPage" (.num page))
        (acc ++ res) (evs ++ [.httpRequest page]) := by
  simp [fetchLoop, hbreak, get_page, hstat, ha, hp, asInt, hr, asArr]

/-- One loop iteration whose break test succeeds returns the accumulator. -/
theorem fetchLoop_break (send : Params → Response) (fuel : Nat)
    (page numPages : Int) (ps : Params) (acc : List Json) (evs : List Event)
    (h : page > 1 ∧ page > numPages) :
    fetchLoop send (fuel + 1) page numPages ps acc evs =
      some (ps, evs, .ok acc) := by
  simp [fetchLoop, h]

theorem httpEvents_length (k : Nat) : ∀ s : Int, (httpEvents s k).length = k := by
  induction k with
  | zero => intro s; rfl
  | succ k ih => intro s; simp [httpEvents, ih]

theorem pagesConcat_length (rs : Nat → List Json) (k : Nat) :
    ∀ s : Nat, (pagesConcat rs s k).length =
      ((List.range k).map fun i => (rs (s + i)).length).sum := by
  induction k with
  | zero => intro s; rfl
  | succ k ih =>
    intro s
    have hmap : ((List.range k).map fun i => (rs (s + 1 + i)).length) =
        (List.range k).map fun i => (rs (s + (i + 1))).length := by
      apply List.map_congr_left
      intro i _
      have h : s + 1 + i = s + (i + 1) := by omega
      rw [h]
    calc (pagesConcat rs s (k + 1)).length
        = (rs s).length + (pagesConcat rs (s + 1) k).length := by
          simp [pagesConcat]
      _ = (rs s).length +
          ((List.range k).map fun i => (rs (s + (i + 1))).length).sum := by
          rw [ih (s + 1), hmap]
      _ = ((List.range (k + 1)).map fun i => (rs (s + i)).length).sum := by
          rw [List.range_succ_eq_map]
          simp [List.map_map, Function.comp_def]

/-- Under a server that consistently reports `pages = N`, the loop from any
page `p` with `2 ≤ p ≤ N + 1` fetches pages `p, …, N` in order and stops. -/
theorem fetchLoop_consistent_aux (send : Params → Response) (N : Nat)
    (rs : Nat → List Json)
    (hsend : ∀ (i : Nat) (ps : Params), 1 ≤ i → i ≤ max N 1 →
      lookupKey ps "articlesPage" = some (.num (i : Int)) →
      isErrorStatus (send ps).status = false ∧
      ∃ a, getField (send ps).body "articles" = some a ∧
        getField a "pages" = some (.num (N : Int)) ∧
        getField a "results" = some (.arr (rs i))) :
    ∀ (fuel p : Nat) (ps : Params) (acc : List Json) (evs : List Event),
      2 ≤ p → p ≤ N + 1 → N + 2 - p ≤ fuel →
      ∃ psF, fetchLoop send fuel (p : Int) (N : Int) ps acc evs =
        some (psF, evs ++ httpEvents (p : Int) (N + 1 - p),
              .ok (acc ++ pagesConcat rs p (N + 1 - p))) := by
  intro fuel
  induction fuel with
  | zero =>
    intro p ps acc evs h2 hpN hfuel
    exact absurd hfuel (by omega)
  | succ fuel ih =>
    intro p ps acc evs h2 hpN hfuel
    by_cases hend : p = N + 1
    · subst hend
      have h0 : N + 1 - (N + 1) = 0 := by omega
      refine ⟨ps, ?_⟩
      rw [h0, fetchLoop_break send fuel _ _ ps acc evs (by
        constructor
        · exact_mod_cast (by omega : (1 : Nat) < N + 1)
        · exact_mod_cast (by omega : N < N + 1))]
      simp [httpEvents, pagesConcat]
    · have hpN' : p ≤ N := by omega
      obtain ⟨hstat, a, ha, hp, hr⟩ :=
        hsend p (setKey ps "articlesPage" (.num (p : Int))) (by omega)
          (by omega) (lookupKey_setKey_self ps _ _)
      rw [fetchLoop_step_ok send fuel (p : Int) (N : Int) (N : Int) ps acc
        (rs p) evs a
        (by
          rintro ⟨_, hgt⟩
          have : (p : Int) ≤ (N : Int) := by exact_mod_cast hpN'
          omega)
        hstat ha hp hr]
      have hcast : ((p : Int) + 1) = ((p + 1 : Nat) : Int) := by push_cast; ring
      rw [hcast]
      obtain ⟨psF, hloop⟩ :=
        ih (p + 1) (setKey ps "articlesPage" (.num (p : Int))) (acc ++ rs p)
          (evs ++ [.httpRequest (p : Int)]) (by omega) (by omega) (by omega)
      refine ⟨psF, hloop.trans ?_⟩
      have hk : N + 1 - p = (N + 1 - (p + 1)) + 1 := by omega
      rw [hk]
      simp [httpEvents, pagesConcat, List.append_assoc]

/-- C1: against a server that reports `pages = N` on every fetched page
and returns list `rs i` for page `i`, the loop terminates, issues exactly
`N` requests when `N > 1` and exactly one when `N ≤ 1` (pages
`1, 2, …, max N 1` in order), and the final accumulator is the
concatenation of the per-page result lists in page order, so its length is
the sum of the per-page counts — no record dropped or reordered. -/
theorem pagination_consistent (N : Nat) (rs : Nat → List Json)
    (send : Params → Response) (ps0 : Params) (extra : Nat)
    (hsend : ∀ (i : Nat) (ps : Params), 1 ≤ i → i ≤ max N 1 →
      lookupKey ps "articlesPage" = some (.num (i : Int)) →
      isErrorStatus (send ps).status = false ∧
      ∃ a, getField (send ps).body "articles" = some a ∧
        getField a "pages" = some (.num (N : Int)) ∧
        getField a "results" = some (.arr (rs i))) :
    ∃ psF, fetchLoop send (N + 2 + extra) 1 0 ps0 [] [] =
        some (psF, httpEvents 1 (max N 1), .ok (pagesConcat rs 1 (max N 1))) ∧
      (httpEvents 1 (max N 1)).length = (if N ≤ 1 then 1 else N) ∧
      (pagesConcat rs 1 (max N 1)).length =
        ((List.range (max N 1)).map fun i => (rs (1 + i)).length).sum := by
  have hlen2 : (httpEvents 1 (max N 1)).length = (if N ≤ 1 then 1 else N) := by
    rw [httpEvents_length]
    split_ifs <;> omega
  have hlen3 := pagesConcat_length rs (max N 1) 1
  suffices h : ∃ psF, fetchLoop send (N + 2 + extra) 1 0 ps0 [] [] =
      some (psF, httpEvents 1 (max N 1), .ok (pagesConcat rs 1 (max N 1))) by
    obtain ⟨psF, hloop⟩ := h
    exact ⟨psF, hloop, hlen2, hlen3⟩
  have hfuel : N + 2 + extra = (N + 1 + extra) + 1 := by omega
  rw [hfuel]
  have hlook1 : lookupKey (setKey ps0 "articlesPage" (Json.num 1))
      "articlesPage" = some (Json.num ((1 : Nat) : Int)) := by
    simpa using lookupKey_setKey_self ps0 "articlesPage" (Json.num 1)
  obtain ⟨hstat, a, ha, hp, hr⟩ :=
    hsend 1 (setKey ps0 "articlesPage" (.num (1 : Int))) (by omega)
      (by omega) hlook1
  rw [fetchLoop_step_ok send (N + 1 + extra) 1 0 (N : Int) ps0 [] (rs 1) [] a
    (by simp) hstat ha hp hr]
  by_cases hN : N = 0
  · subst hN
    have hf2 : 0 + 1 + extra = extra + 1 := by omega
    rw [hf2, fetchLoop_break send extra (1 + 1) ((0 : Nat) : Int)
      (setKey ps0 "articlesPage" (.num 1)) ([] ++ rs 1)
      ([] ++ [Event.httpRequest 1]) (by norm_num)]
    refine ⟨setKey ps0 "articlesPage" (.num 1), ?_⟩
    simp [httpEvents, pagesConcat]
  · have hN1 : 1 ≤ N := by omega
    have hmax : max N 1 = N := by omega
    have hcast : ((1 : Int) + 1) = ((2 : Nat) : Int) := by norm_num
    rw [hcast]
    obtain ⟨psF, hloop⟩ := fetchLoop_consistent_aux send N rs hsend
      (N + 1 + extra) 2 (setKey ps0 "articlesPage" (.num 1)) ([] ++ rs 1)
      ([] ++ [.httpRequest 1]) (by omega) (by omega) (by omega)
    refine ⟨psF, hloop.trans ?_⟩
    have hk : max N 1 = (N + 1 - 2) + 1 := by omega
    rw [hk]
    simp [httpEvents, pagesConcat]

theorem pagination_consistent_witness :
    ∃ psF, fetchLoop sendTwoPages (2 + 2 + 0) 1 0 [] [] [] =
        some (psF, httpEvents 1 (max 2 1),
          .ok (pagesConcat (fun i => rsAt i) 1 (max 2 1))) ∧
      (httpEvents 1 (max 2 1)).length = (if 2 ≤ 1 then 1 else 2) ∧
      (pagesConcat (fun i => rsAt i) 1 (max 2 1)).length =
        ((List.range (max 2 1)).map fun i => (rsAt (1 + i)).length).sum :=
  pagination_consistent 2 (fun i => rsAt i) sendTwoPages [] 0 (by
    intro i ps _ _ hl
    refine ⟨rfl, .obj [("results", .arr (rsAt i)), ("pages", .num 2)],
      ?_, rfl, rfl⟩
    simp [sendTwoPages, getField, lookupKey, pageOf, hl])

/-! ### C3 — first page reporting zero or missing page count -/

/-- C3 counterexample: a first-page response that omits `pages` does NOT
let the run "stop without error" after its single fetch — the loop aborts
with `malformedResponse` (Python: `KeyError: 'pages'` at
`num_pages = data["pages"]`), so the half of the claim covering an absent
`pages` field is false.  (The fetch count, 1, is as claimed.) -/
theorem pages_absent_aborts :
    fetchLoop sendNoPages 3 1 0 [] [] [] =
      some ([("articlesPage", Json.num 1)], [.httpRequest 1],
        .error .malformedResponse) := rfl

/-- C3 (amended): a first-page response reporting `pages: 0` yields
exactly one fetch and a clean stop carrying that page's records; a
first-page response omitting `pages` also yields exactly one fetch — the
loop never issues a second request — but the run then aborts with
`malformedResponse` rather than stopping cleanly. -/
theorem first_page_pages_zero_or_absent :
    (∀ (send : Params → Response) (ps0 : Params) (res : List Json)
      (extra : Nat),
      (∀ ps, lookupKey ps "articlesPage" = some (.num 1) →
        isErrorStatus (send ps).status = false ∧
        ∃ a, getField (send ps).body "articles" = some a ∧
          getField a "pages" = some (.num 0) ∧
          getField a "results" = some (.arr res)) →
      fetchLoop send (extra + 2) 1 0 ps0 [] [] =
        some (setKey ps0 "articlesPage" (.num 1), [.httpRequest 1],
          .ok res)) ∧
    (∀ (send : Params → Response) (ps0 : Params) (extra : Nat),
      (∀ ps, lookupKey ps "articlesPage" = some (.num 1) →
        isErrorStatus (send ps).status = false ∧
        ∃ a, getField (send ps).body "articles" = some a ∧
          getField a "pages" = none) →
      fetchLoop send (extra + 1) 1 0 ps0 [] [] =
        some (setKey ps0 "articlesPage" (.num 1), [.httpRequest 1],
          .error .malformedResponse)) := by
  constructor
  · intro send ps0 res extra hsend
    obtain ⟨hstat, a, ha, hp, hr⟩ := hsend _ (lookupKey_setKey_self ps0 _ _)
    have h2 : extra + 2 = (extra + 1) + 1 := by omega
    rw [h2, fetchLoop_step_ok send (extra + 1) 1 0 0 ps0 [] res [] a
      (by norm_num) hstat ha hp hr]
    rw [fetchLoop_break send extra (1 + 1) 0 _ _ _ (by norm_num)]
    simp
  · intro send ps0 extra hsend
    obtain ⟨hstat, a, ha, hp⟩ := hsend _ (lookupKey_setKey_self ps0 _ _)
    simp [fetchLoop, show ¬((1 : Int) > 1 ∧ (1 : Int) > 0) from by norm_num,
      get_page, hstat, ha, hp]

theorem first_page_pages_zero_or_absent_witness :
    fetchLoop sendZeroPages (0 + 2) 1 0 [] [] [] =
      some (setKey [] "articlesPage" (.num 1), [.httpRequest 1],
        .ok (rsAt 1)) ∧
    fetchLoop sendNoPages (0 + 1) 1 0 [] [] [] =
      some (setKey [] "articlesPage" (.num 1), [.httpRequest 1],
        .error .malformedResponse) :=
  ⟨first_page_pages_zero_or_absent.1 sendZeroPages [] (rsAt 1) 0 (by
      intro ps hl
      refine ⟨rfl, .obj [("results", .arr (rsAt 1)), ("pages", .num 0)],
        ?_, rfl, rfl⟩
      simp [sendZeroPages, getField, lookupKey, pageOf, hl]),
   first_page_pages_zero_or_absent.2 sendNoPages [] 0 (by
      intro ps _
      exact ⟨rfl, .obj [("results", .arr [.str "r"])], rfl, rfl⟩)⟩

/-! ### C6 — a mid-pagination failure writes nothing -/

theorem fetchLoop_events_http (send : Params → Response) :
    ∀ (fuel : Nat) (page numPages : Int) (ps : Params) (acc : List Json)
      (evs : List Event) (psF : Params) (evsF : List Event)
      (res : Except Err (List Json)),
      fetchLoop send fuel page numPages ps acc evs = some (psF, evsF, res) →
      (∀ e ∈ evs, ∃ q, e = Event.httpRequest q) →
      ∀ e ∈ evsF, ∃ q, e = Event.httpRequest q := by
  intro fuel
  induction fuel with
  | zero =>
    intro page numPages ps acc evs psF evsF res h
    simp [fetchLoop] at h
  | succ fuel ih =>
    intro page numPages ps acc evs psF evsF res h hevs
    have hevs' : ∀ e ∈ evs ++ [Event.httpRequest page],
        ∃ q, e = Event.httpRequest q := by
      intro e he
      rcases List.mem_append.mp he with h1 | h2
      · exact hevs e h1
      · simp only [List.mem_singleton] at h2
        exact ⟨page, h2⟩
    simp only [fetchLoop] at h
    split at h
    · simp only [Option.some.injEq, Prod.mk.injEq] at h
      obtain ⟨-, h2, -⟩ := h
      subst h2
      exact hevs
    · split at h
      · simp only [Option.some.injEq, Prod.mk.injEq] at h
        obtain ⟨-, h2, -⟩ := h
        subst h2
        exact hevs'
      · split at h
        · simp only [Option.some.injEq, Prod.mk.injEq] at h
          obtain ⟨-, h2, -⟩ := h
          subst h2
          exact hevs'
        · split at h
          · simp only [Option.some.injEq, Prod.mk.injEq] at h
            obtain ⟨-, h2, -⟩ := h
            subst h2
            exact hevs'
          · split at h
            · simp only [Option.some.injEq, Prod.mk.injEq] at h
              obtain ⟨-, h2, -⟩ := h
              subst h2
              exact hevs'
            · split at h
              · simp only [Option.some.injEq, Prod.mk.injEq] at h
                obtain ⟨-, h2, -⟩ := h
                subst h2
                exact hevs'
              · exact ih _ _ _ _ _ _ _ _ h hevs'

theorem no_write_in_trace (evs : List Event)
    (h : ∀ e ∈ evs, ∃ q, e = Event.httpRequest q) :
    Event.writeOutput ∉
      Event.resolveCredential :: Event.readQueryFile :: evs := by
  intro hmem
  simp only [List.mem_cons] at hmem
  rcases hmem with h1 | h1 | h1
  · cases h1
  · cases h1
  · obtain ⟨q, hq⟩ := h _ h1
    cases hq

/-- C6: if a run of `main` ends in any error — HTTP failure, malformed
response, or anything else — its trace contains no write event and the
output path still holds its previous content: every record accumulated
before the failure is discarded.  Conversely a successful run's single
write event is the very last effect, after the complete result set has
been gathered. -/
theorem failure_discards (inp : Input) (r : Run)
    (hrun : mainRun inp = some r) :
    (∀ e, r.result = .error e →
      Event.writeOutput ∉ r.events ∧ r.file = inp.oldFile) ∧
    (∀ arts, r.result = .ok arts →
      ∃ pre, r.events = pre ++ [Event.writeOutput] ∧
        Event.writeOutput ∉ pre) := by
  simp only [mainRun] at hrun
  split at hrun
  · obtain rfl := Option.some.inj hrun
    exact ⟨fun e _ => ⟨by simp, rfl⟩, fun arts h => by cases h⟩
  · split at hrun
    · obtain rfl := Option.some.inj hrun
      refine ⟨fun e _ => ⟨?_, rfl⟩, fun arts h => by cases h⟩
      intro hmem
      simp only [List.mem_singleton] at hmem
      cases hmem
    · split at hrun
      · obtain rfl := Option.some.inj hrun
        refine ⟨fun e _ => ⟨?_, rfl⟩, fun arts h => by cases h⟩
        intro hmem
        simp only [List.mem_cons, List.not_mem_nil] at hmem
        rcases hmem with h1 | h1 | h1
        · cases h1
        · cases h1
        · exact h1
      · split at hrun
        · cases hrun
        · rename_i psF evs e heq
          obtain rfl := Option.some.inj hrun
          refine ⟨fun e' _ => ⟨?_, rfl⟩, fun arts h => by cases h⟩
          exact no_write_in_trace evs
            (fetchLoop_events_http _ _ _ _ _ _ _ _ _ _ heq (by simp))
        · rename_i psF evs arts heq
          obtain rfl := Option.some.inj hrun
          constructor
          · intro e h
            cases h
          · intro arts' h
            refine ⟨Event.resolveCredential :: Event.readQueryFile :: evs,
              by simp, ?_⟩
            exact no_write_in_trace evs
              (fetchLoop_events_http _ _ _ _ _ _ _ _ _ _ heq (by simp))

theorem failure_discards_witness :
    mainRun input404 = some
      { result := .error (.httpError 404),
        events := [.resolveCredential, .readQueryFile, .httpRequest 1],
        file := some "stale" } ∧
    Event.writeOutput ∉
      [Event.resolveCredential, Event.readQueryFile, Event.httpRequest 1] ∧
    (some "stale" : Option String) = input404.oldFile :=
  ⟨rfl,
   (failure_discards input404
      { result := .error (.httpError 404),
        events := [.resolveCredential, .readQueryFile, .httpRequest 1],
        file := some "stale" } rfl).1 (.httpError 404) rfl |>.1,
   ((failure_discards input404
      { result := .error (.httpError 404),
        events := [.resolveCredential, .readQueryFile, .httpRequest 1],
        file := some "stale" } rfl).1 (.httpError 404) rfl).2 ▸ rfl⟩

/-! ### Character and digit lemmas for the round trip -/

theorem hexVal_hexDigitChar : ∀ d : Nat, d < 16 →
    hexVal (hexDigitChar d) = some d := by decide

theorem hexDigitChar_isDigit : ∀ d : Nat, d < 10 →
    (hexDigitChar d).isDigit = true := by decide

theorem hexDigitChar_toNat : ∀ d : Nat, d < 10 →
    (hexDigitChar d).toNat - 48 = d := by decide

theorem digit_toNat_bounds (c : Char) (h : c.isDigit = true) :
    48 ≤ c.toNat ∧ c.toNat ≤ 57 := by
  simp only [Char.isDigit, decide_eq_true_eq, Bool.and_eq_true] at h
  obtain ⟨h1, h2⟩ := h
  exact ⟨by exact_mod_cast h1, by exact_mod_cast h2⟩

theorem digit_ne_char (c : Char) (h : c.isDigit = true) (d : Char)
    (hd : d.toNat < 48 ∨ 57 < d.toNat) : c ≠ d := by
  obtain ⟨h1, h2⟩ := digit_toNat_bounds c h
  intro he
  subst he
  omega

theorem digit_not_ws (c : Char) (h : c.isDigit = true) : isWsChar c = false := by
  have w1 := digit_ne_char c h ' ' (by decide)
  have w2 := digit_ne_char c h '\n' (by decide)
  have w3 := digit_ne_char c h '\t' (by decide)
  have w4 := digit_ne_char c h '\r' (by decide)
  simp [isWsChar, w1, w2, w3, w4]

theorem digit_ne (c : Char) (h : c.isDigit = true) :
    c ≠ 'n' ∧ c ≠ 't' ∧ c ≠ 'f' ∧ c ≠ '"' ∧ c ≠ '[' ∧ c ≠ obrace ∧
      c ≠ '-' ∧ c ≠ ']' ∧ c ≠ cbrace :=
  ⟨digit_ne_char c h 'n' (by decide), digit_ne_char c h 't' (by decide),
   digit_ne_char c h 'f' (by decide), digit_ne_char c h '"' (by decide),
   digit_ne_char c h '[' (by decide), digit_ne_char c h obrace (by decide),
   digit_ne_char c h '-' (by decide), digit_ne_char c h ']' (by decide),
   digit_ne_char c h cbrace (by decide)⟩

theorem skipWs_not_ws (c : Char) (cs : List Char) (h : isWsChar c = false) :
    skipWs (c :: cs) = c :: cs := by
  simp [skipWs, h]

theorem skipWs_newline (cs : List Char) : skipWs ('\n' :: cs) = skipWs cs := by
  simp [skipWs, isWsChar]

theorem skipWs_spaces (n : Nat) (cs : List Char) :
    skipWs (spaces n ++ cs) = skipWs cs := by
  induction n with
  | zero => rfl
  | succ n ih => simp [spaces, skipWs, isWsChar, ih]

theorem parseDigitsAcc_stop (rest : List Char) (acc : Nat)
    (h : noDigitHead rest) : parseDigitsAcc rest acc = (acc, rest) := by
  cases rest with
  | nil => rfl
  | cons c cs =>
    simp only [noDigitHead] at h
    simp [parseDigitsAcc, h]

theorem natToChars_head (n : Nat) :
    ∃ d ds, natToChars n = d :: ds ∧ d.isDigit = true := by
  induction n using Nat.strong_induction_on with
  | _ n ih =>
    rw [natToChars]
    by_cases h : n < 10
    · exact ⟨hexDigitChar n, [], by simp [h], hexDigitChar_isDigit n h⟩
    · obtain ⟨d, ds, hds, hdig⟩ :=
        ih (n / 10) (Nat.div_lt_self (by omega) (by omega))
      exact ⟨d, ds ++ [hexDigitChar (n % 10)], by simp [h, hds], hdig⟩

theorem parseDigitsAcc_natToChars (n : Nat) :
    ∀ (acc : Nat) (rest : List Char),
      parseDigitsAcc (natToChars n ++ rest) acc =
        parseDigitsAcc rest (acc * 10 ^ (natToChars n).length + n) := by
  induction n using Nat.strong_induction_on with
  | _ n ih =>
    intro acc rest
    by_cases h : n < 10
    · rw [natToChars, dif_pos h]
      simp only [List.cons_append, List.nil_append, List.length_cons,
        List.length_nil]
      rw [parseDigitsAcc]
      simp [hexDigitChar_isDigit n h, hexDigitChar_toNat n h]
    · rw [natToChars, dif_neg h]
      have hdiv := Nat.div_lt_self (n := n) (by omega) (by omega : 1 < 10)
      rw [List.append_assoc, ih (n / 10) hdiv acc
        ([hexDigitChar (n % 10)] ++ rest)]
      have hm : n % 10 < 10 := Nat.mod_lt _ (by omega)
      simp only [List.singleton_append]
      rw [parseDigitsAcc]
      simp only [hexDigitChar_isDigit (n % 10) hm, if_true,
        hexDigitChar_toNat (n % 10) hm]
      congr 1
      have hlen : (natToChars (n / 10) ++ [hexDigitChar (n % 10)]).length =
          (natToChars (n / 10)).length + 1 := by simp
      rw [hlen, pow_succ]
      have hdm : n / 10 * 10 + n % 10 = n := by omega
      calc (acc * 10 ^ (natToChars (n / 10)).length + n / 10) * 10 + n % 10
          = acc * (10 ^ (natToChars (n / 10)).length * 10) +
            (n / 10 * 10 + n % 10) := by ring
        _ = acc * (10 ^ (natToChars (n / 10)).length * 10) + n := by rw [hdm]

theorem parsePosNumber_natToChars (n : Nat) (rest : List Char)
    (h : noDigitHead rest) :
    parsePosNumber (natToChars n ++ rest) = some (n, rest) := by
  obtain ⟨d, ds, hds, hdig⟩ := natToChars_head n
  have hstep : parsePosNumber (natToChars n ++ rest) =
      some (parseDigitsAcc (natToChars n ++ rest) 0) := by
    rw [hds]
    simp only [List.cons_append]
    rw [parsePosNumber, if_pos hdig, parseDigitsAcc, if_pos hdig]
    simp
  rw [hstep, parseDigitsAcc_natToChars n 0 rest, parseDigitsAcc_stop rest _ h]
  simp

theorem parseNumber_intToChars (n : Int) (rest : List Char)
    (h : noDigitHead rest) :
    parseNumber (intToChars n ++ rest) = some (n, rest) := by
  by_cases hn : n < 0
  · rw [intToChars, if_pos hn]
    simp only [List.cons_append]
    rw [parseNumber, if_pos rfl, parsePosNumber_natToChars _ rest h]
    simp only [Option.map_some']
    congr 2
    rw [Int.toNat_of_nonneg (by omega)]
    ring
  · rw [intToChars, if_neg hn]
    obtain ⟨d, ds, hds, hdig⟩ := natToChars_head n.toNat
    rw [hds]
    simp only [List.cons_append]
    rw [parseNumber, if_neg (digit_ne d hdig).2.2.2.2.2.2.1, ← List.cons_append,
      ← hds, parsePosNumber_natToChars _ rest h]
    simp only [Option.map_some']
    congr 2
    rw [Int.toNat_of_nonneg (by omega)]

theorem parseStringBody_escape : ∀ (cs rest : List Char),
    parseStringBody (escapeList cs ++ '"' :: rest) = some (cs, rest) := by
  intro cs
  induction cs with
  | nil =>
    intro rest
    show parseStringBody (([] : List (List Char)).flatten ++ '"' :: rest) = _
    simp only [List.flatten_nil, List.nil_append]
    rw [parseStringBody.eq_def]
    simp
  | cons c cs ih =>
    intro rest
    have hesc : escapeList (c :: cs) = escapeChar c ++ escapeList cs := by
      simp [escapeList]
    rw [hesc, List.append_assoc, escapeChar]
    split_ifs with h1 h2 h3 h4 h5 h6 h7 h8
    · subst h1
      rw [List.cons_append, List.cons_append, List.nil_append,
        parseStringBody.eq_def]
      simp [unescape, ih rest]
    · subst h2
      rw [List.cons_append, List.cons_append, List.nil_append,
        parseStringBody.eq_def]
      simp [unescape, ih rest]
    · subst h3
      rw [List.cons_append, List.cons_append, List.nil_append,
        parseStringBody.eq_def]
      simp [unescape, ih rest]
    · subst h4
      rw [List.cons_append, List.cons_append, List.nil_append,
        parseStringBody.eq_def]
      simp [unescape, ih rest]
    · subst h5
      rw [List.cons_append, List.cons_append, List.nil_append,
        parseStringBody.eq_def]
      simp [unescape, ih rest]
    · subst h6
      rw [List.cons_append, List.cons_append, List.nil_append,
        parseStringBody.eq_def]
      simp [unescape, ih rest]
    · subst h7
      rw [List.cons_append, List.cons_append, List.nil_append,
        parseStringBody.eq_def]
      simp [unescape, ih rest]
    · have hhi : c.toNat / 16 < 16 := by omega
      have hlo : c.toNat % 16 < 16 := Nat.mod_lt _ (by omega)
      simp only [List.cons_append, List.nil_append]
      rw [parseStringBody.eq_def]
      simp [hexVal_hexDigitChar _ hhi, hexVal_hexDigitChar _ hlo, ih rest]
      rw [show hexVal '0' = some 0 from rfl]
      show some (Char.ofNat
        (((0 * 16 + 0) * 16 + c.toNat / 16) * 16 + c.toNat % 16) :: cs, rest) =
        some (c :: cs, rest)
      rw [show ((0 * 16 + 0) * 16 + c.toNat / 16) * 16 + c.toNat % 16 =
        c.toNat from by omega, Char.ofNat_toNat]
    · simp only [List.cons_append, List.nil_append]
      rw [parseStringBody.eq_def]
      simp [h1, h2, ih rest]

theorem intToChars_head (n : Int) :
    ∃ d ds, intToChars n = d :: ds ∧ (d.isDigit = true ∨ d = '-') := by
  by_cases hn : n < 0
  · rw [intToChars, if_pos hn]
    exact ⟨'-', _, rfl, Or.inr rfl⟩
  · rw [intToChars, if_neg hn]
    obtain ⟨d, ds, hds, hdig⟩ := natToChars_head n.toNat
    exact ⟨d, ds, hds, Or.inl hdig⟩

theorem render_head (ind : Nat) (v : Json) :
    ∃ c cs, render ind v = c :: cs ∧ isWsChar c = false ∧ c ≠ ']' := by
  cases v with
  | null =>
    exact ⟨'n', ['u', 'l', 'l'], by rw [render.eq_def], by decide, by decide⟩
  | bool b =>
    cases b
    · exact ⟨'f', ['a', 'l', 's', 'e'], by rw [render.eq_def], by decide,
        by decide⟩
    · exact ⟨'t', ['r', 'u', 'e'], by rw [render.eq_def], by decide,
        by decide⟩
  | num n =>
    obtain ⟨d, ds, hds, hd⟩ := intToChars_head n
    refine ⟨d, ds, by rw [render.eq_def]; exact hds, ?_, ?_⟩
    · rcases hd with hdig | rfl
      · exact digit_not_ws d hdig
      · decide
    · rcases hd with hdig | rfl
      · exact (digit_ne d hdig).2.2.2.2.2.2.2.1
      · decide
  | str s =>
    exact ⟨'"', escapeList s.data ++ ['"'], by rw [render.eq_def]; rfl,
      by decide, by decide⟩
  | arr xs =>
    cases xs with
    | nil => exact ⟨'[', [']'], by rw [render.eq_def], by decide, by decide⟩
    | cons x xs =>
      exact ⟨'[', '\n' :: spaces ((ind + 1) * 4) ++ renderItems (ind + 1) x xs
        ++ '\n' :: spaces (ind * 4) ++ [']'], by rw [render.eq_def]; rfl,
        by decide, by decide⟩
  | obj kvs =>
    rcases kvs with - | ⟨⟨k, v⟩, kvs⟩
    · exact ⟨obrace, [cbrace], by rw [render.eq_def], by decide, by decide⟩
    · exact ⟨obrace, '\n' :: spaces ((ind + 1) * 4)
        ++ renderFields (ind + 1) k v kvs ++ '\n' :: spaces (ind * 4)
        ++ [cbrace], by rw [render.eq_def]; rfl, by decide, by decide⟩

theorem skipWs_render (ind : Nat) (v : Json) (rest : List Char) :
    skipWs (render ind v ++ rest) = render ind v ++ rest := by
  obtain ⟨c, cs, hc, hws, -⟩ := render_head ind v
  rw [hc, List.cons_append, skipWs_not_ws _ _ hws]

theorem renderItems_head (ind : Nat) (x : Json) (xs : List Json) :
    ∃ tl, renderItems ind x xs = render ind x ++ tl := by
  cases xs with
  | nil => exact ⟨[], by rw [renderItems.eq_def]; simp⟩
  | cons y ys =>
    exact ⟨',' :: '\n' :: spaces (ind * 4) ++ renderItems ind y ys,
      by rw [renderItems.eq_def]; simp⟩

theorem skipWs_renderItems (ind : Nat) (x : Json) (xs : List Json)
    (rest : List Char) :
    skipWs (renderItems ind x xs ++ rest) = renderItems ind x xs ++ rest := by
  obtain ⟨tl, htl⟩ := renderItems_head ind x xs
  rw [htl, List.append_assoc, skipWs_render, ← List.append_assoc]

theorem renderFields_head (ind : Nat) (k : String) (v : Json)
    (kvs : List (String × Json)) :
    ∃ tl, renderFields ind k v kvs = '"' :: tl := by
  rcases kvs with - | ⟨⟨k2, v2⟩, kvs⟩
  · exact ⟨(escapeList k.data ++ ['"']) ++ ':' :: ' ' :: render ind v,
      by rw [renderFields.eq_def]; simp [renderString]⟩
  · exact ⟨(escapeList k.data ++ ['"']) ++ ':' :: ' ' :: render ind v
      ++ ',' :: '\n' :: spaces (ind * 4) ++ renderFields ind k2 v2 kvs,
      by rw [renderFields.eq_def]; simp [renderString]⟩

theorem skipWs_renderFields (ind : Nat) (k : String) (v : Json)
    (kvs : List (String × Json)) (rest : List Char) :
    skipWs (renderFields ind k v kvs ++ rest) =
      renderFields ind k v kvs ++ rest := by
  obtain ⟨tl, htl⟩ := renderFields_head ind k v kvs
  rw [htl, List.cons_append, skipWs_not_ws _ _ (by decide)]

theorem fuelV_pos (v : Json) : 1 ≤ fuelV v := by
  cases v with
  | arr xs => cases xs <;> simp [fuelV]
  | obj kvs =>
    rcases kvs with - | ⟨⟨k, v⟩, kvs⟩ <;> simp [fuelV]
  | _ => simp [fuelV]

theorem fuelItems_pos (x : Json) (xs : List Json) : 1 ≤ fuelItems x xs := by
  cases xs <;> simp only [fuelItems] <;> omega

theorem fuelFields_pos (v : Json) (kvs : List (String × Json)) :
    1 ≤ fuelFields v kvs := by
  rcases kvs with - | ⟨⟨k2, v2⟩, kvs⟩ <;> simp only [fuelFields] <;> omega

theorem string_mk_data (s : String) : String.mk s.data = s := by
  cases s
  rfl

theorem noDigitHead_cons (c : Char) (cs : List Char) :
    noDigitHead (c :: cs) ↔ c.isDigit = false := Iff.rfl

theorem parseVal_open_bracket (fuel : Nat) (tail : List Char) :
    parseVal (fuel + 1) ('[' :: tail) =
      (match skipWs tail with
      | [] => none
      | d :: rest =>
        if d = ']' then some (.arr [], rest)
        else (parseItems fuel (d :: rest)).map fun p => (.arr p.1, p.2)) := by
  simp [parseVal, skipWs, isWsChar]

theorem parseVal_open_brace (fuel : Nat) (tail : List Char) :
    parseVal (fuel + 1) (obrace :: tail) =
      (match skipWs tail with
      | [] => none
      | d :: rest =>
        if d = cbrace then some (.obj [], rest)
        else (parseFields fuel (d :: rest)).map fun p => (.obj p.1, p.2)) := by
  simp [parseVal, skipWs, isWsChar, obrace, cbrace]

theorem parseVal_quote (fuel : Nat) (tail : List Char) :
    parseVal (fuel + 1) ('"' :: tail) =
      (parseStringBody tail).map fun p => (.str (String.mk p.1), p.2) := by
  simp [parseVal, skipWs, isWsChar]


theorem skipWs_space (cs : List Char) : skipWs (' ' :: cs) = skipWs cs := by
  simp [skipWs, isWsChar]

theorem parse_render_all : ∀ fuel : Nat,
    (∀ (v : Json) (ind : Nat) (rest : List Char), fuelV v ≤ fuel →
      noDigitHead rest →
      parseVal fuel (render ind v ++ rest) = some (v, rest)) ∧
    (∀ (x : Json) (xs : List Json) (ind m : Nat) (rest : List Char),
      fuelItems x xs ≤ fuel →
      parseItems fuel
        (renderItems ind x xs ++ '\n' :: spaces m ++ ']' :: rest) =
        some (x :: xs, rest)) ∧
    (∀ (k : String) (v : Json) (kvs : List (String × Json)) (ind m : Nat)
      (rest : List Char), fuelFields v kvs ≤ fuel →
      parseFields fuel
        (renderFields ind k v kvs ++ '\n' :: spaces m ++ cbrace :: rest) =
        some ((k, v) :: kvs, rest)) := by
  intro fuel
  induction fuel with
  | zero =>
    refine ⟨fun v ind rest hf _ => absurd hf ?_,
      fun x xs ind m rest hf => absurd hf ?_,
      fun k v kvs ind m rest hf => absurd hf ?_⟩
    · have := fuelV_pos v; omega
    · have := fuelItems_pos x xs; omega
    · have := fuelFields_pos v kvs; omega
  | succ fuel ih =>
    obtain ⟨ihV, ihI, ihF⟩ := ih
    refine ⟨?_, ?_, ?_⟩
    · intro v ind rest hf hnd
      cases v with
      | null =>
        rw [show render ind .null = ['n', 'u', 'l', 'l'] from by
          rw [render.eq_def]]
        simp [parseVal, skipWs, isWsChar]
      | bool b =>
        cases b
        · rw [show render ind (.bool false) = ['f', 'a', 'l', 's', 'e'] from by
            rw [render.eq_def]]
          simp [parseVal, skipWs, isWsChar]
        · rw [show render ind (.bool true) = ['t', 'r', 'u', 'e'] from by
            rw [render.eq_def]]
          simp [parseVal, skipWs, isWsChar]
      | num n =>
        rw [show render ind (.num n) = intToChars n from by rw [render.eq_def]]
        obtain ⟨d, ds, hds, hd⟩ := intToChars_head n
        have hws : isWsChar d = false := by
          rcases hd with hdig | rfl
          · exact digit_not_ws d hdig
          · decide
        have hne : d ≠ 'n' ∧ d ≠ 't' ∧ d ≠ 'f' ∧ d ≠ '"' ∧ d ≠ '[' ∧
            d ≠ obrace := by
          rcases hd with hdig | rfl
          · obtain ⟨a1, a2, a3, a4, a5, a6, -, -, -⟩ := digit_ne d hdig
            exact ⟨a1, a2, a3, a4, a5, a6⟩
          · exact ⟨by decide, by decide, by decide, by decide, by decide,
              by decide⟩
        have hpn : parseNumber (d :: (ds ++ rest)) = some (n, rest) := by
          rw [← List.cons_append, ← hds]
          exact parseNumber_intToChars n rest hnd
        rw [hds, List.cons_append]
        simp [parseVal, skipWs_not_ws _ _ hws, hne.1, hne.2.1, hne.2.2.1,
          hne.2.2.2.1, hne.2.2.2.2.1, hne.2.2.2.2.2, hpn]
      | str s =>
        rw [show render ind (.str s) = renderString s from by
          rw [render.eq_def]]
        rw [renderString]
        simp only [List.cons_append, List.append_assoc, List.singleton_append,
          List.nil_append]
        rw [parseVal_quote]
        simp [parseStringBody_escape, string_mk_data]
      | arr xs =>
        cases xs with
        | nil =>
          rw [show render ind (.arr []) = ['[', ']'] from by rw [render.eq_def]]
          simp [parseVal, skipWs, isWsChar]
        | cons x xs =>
          have hfv : fuelV (.arr (x :: xs)) = 1 + fuelItems x xs := by
            simp [fuelV]
          have hfI : fuelItems x xs ≤ fuel := by rw [hfv] at hf; omega
          rw [show render ind (.arr (x :: xs)) = '[' :: '\n' ::
            spaces ((ind + 1) * 4) ++ renderItems (ind + 1) x xs ++ '\n' ::
            spaces (ind * 4) ++ [']'] from by rw [render.eq_def]]
          simp only [List.cons_append, List.append_assoc,
            List.singleton_append, List.nil_append]
          rw [parseVal_open_bracket, skipWs_newline, skipWs_spaces,
            skipWs_renderItems]
          obtain ⟨tl, htl⟩ := renderItems_head (ind + 1) x xs
          obtain ⟨c0, cs0, hc0, hws0, hne0⟩ := render_head (ind + 1) x
          have hexp : renderItems (ind + 1) x xs ++
              ('\n' :: (spaces (ind * 4) ++ (']' :: rest))) =
              c0 :: (cs0 ++ (tl ++ ('\n' :: (spaces (ind * 4) ++
                (']' :: rest))))) := by
            rw [htl, hc0]
            simp [List.append_assoc]
          rw [hexp]
          simp only [hne0, if_false, ite_false]
          rw [← hexp]
          have ihI2 := ihI x xs (ind + 1) (ind * 4) rest hfI
          simp only [List.cons_append, List.append_assoc] at ihI2
          rw [ihI2]
          simp
      | obj kvs =>
        rcases kvs with - | ⟨⟨k, v⟩, kvs⟩
        · rw [show render ind (.obj []) = [obrace, cbrace] from by
            rw [render.eq_def]]
          simp [parseVal, skipWs, isWsChar, obrace, cbrace]
        · have hfv : fuelV (.obj ((k, v) :: kvs)) = 1 + fuelFields v kvs := by
            simp [fuelV]
          have hfF : fuelFields v kvs ≤ fuel := by rw [hfv] at hf; omega
          rw [show render ind (.obj ((k, v) :: kvs)) = obrace :: '\n' ::
            spaces ((ind + 1) * 4) ++ renderFields (ind + 1) k v kvs ++ '\n' ::
            spaces (ind * 4) ++ [cbrace] from by rw [render.eq_def]]
          simp only [List.cons_append, List.append_assoc,
            List.singleton_append, List.nil_append]
          rw [parseVal_open_brace, skipWs_newline, skipWs_spaces,
            skipWs_renderFields]
          obtain ⟨tl, htl⟩ := renderFields_head (ind + 1) k v kvs
          have hexp : renderFields (ind + 1) k v kvs ++
              ('\n' :: (spaces (ind * 4) ++ (cbrace :: rest))) =
              '"' :: (tl ++ ('\n' :: (spaces (ind * 4) ++
                (cbrace :: rest)))) := by
            rw [htl]
            simp
          rw [hexp]
          simp only [show ('"' : Char) ≠ cbrace from by decide, if_false,
            ite_false]
          rw [← hexp]
          have ihF2 := ihF k v kvs (ind + 1) (ind * 4) rest hfF
          simp only [List.cons_append, List.append_assoc] at ihF2
          rw [ihF2]
          simp
    · intro x xs ind m rest hf
      cases xs with
      | nil =>
        have h1 : fuelItems x [] = 1 + fuelV x := by simp [fuelItems]
        have hfV : fuelV x ≤ fuel := by rw [h1] at hf; omega
        rw [show renderItems ind x [] = render ind x from by
          rw [renderItems.eq_def]]
        simp only [List.cons_append, List.append_assoc, List.singleton_append,
          List.nil_append]
        simp only [parseItems]
        rw [ihV x ind ('\n' :: (spaces m ++ (']' :: rest))) hfV
          ((noDigitHead_cons _ _).mpr (by decide))]
        simp [skipWs_newline, skipWs_spaces, skipWs, isWsChar]
      | cons y ys =>
        have h1 : fuelItems x (y :: ys) = 1 + fuelV x + fuelItems y ys := by
          simp [fuelItems]
        have hfV : fuelV x ≤ fuel := by rw [h1] at hf; omega
        have hfI : fuelItems y ys ≤ fuel := by rw [h1] at hf; omega
        rw [show renderItems ind x (y :: ys) = render ind x ++ ',' :: '\n' ::
          spaces (ind * 4) ++ renderItems ind y ys from by
          rw [renderItems.eq_def]]
        simp only [List.cons_append, List.append_assoc, List.singleton_append,
          List.nil_append]
        simp only [parseItems]
        rw [ihV x ind (',' :: ('\n' :: (spaces (ind * 4) ++
          (renderItems ind y ys ++ ('\n' :: (spaces m ++ (']' :: rest)))))))
          hfV ((noDigitHead_cons _ _).mpr (by decide))]
        have ihI2 := ihI y ys ind m rest hfI
        simp only [List.cons_append, List.append_assoc] at ihI2
        simp only [skipWs_not_ws ',' _ (by decide), skipWs_newline,
          skipWs_spaces, skipWs_renderItems, ihI2]
        simp
    · intro k v kvs ind m rest hf
      rcases kvs with - | ⟨⟨k2, v2⟩, kvs⟩
      · have h1 : fuelFields v [] = 1 + fuelV v := by simp [fuelFields]
        have hfV : fuelV v ≤ fuel := by rw [h1] at hf; omega
        rw [show renderFields ind k v [] = renderString k ++ ':' :: ' ' ::
          render ind v from by rw [renderFields.eq_def]]
        rw [renderString]
        simp only [List.cons_append, List.append_assoc, List.singleton_append,
          List.nil_append]
        simp only [parseFields]
        simp only [parseStringBody_escape, skipWs_not_ws ':' _ (by decide),
          skipWs_space, skipWs_render, skipWs_newline, skipWs_spaces]
        rw [ihV v ind ('\n' :: (spaces m ++ (cbrace :: rest))) hfV
          ((noDigitHead_cons _ _).mpr (by decide))]
        simp [skipWs_newline, skipWs_spaces, skipWs, isWsChar, string_mk_data,
          cbrace]
      · have h1 : fuelFields v ((k2, v2) :: kvs) =
            1 + fuelV v + fuelFields v2 kvs := by
          simp [fuelFields]
        have hfV : fuelV v ≤ fuel := by rw [h1] at hf; omega
        have hfF : fuelFields v2 kvs ≤ fuel := by rw [h1] at hf; omega
        rw [show renderFields ind k v ((k2, v2) :: kvs) = renderString k ++
          ':' :: ' ' :: render ind v ++ ',' :: '\n' :: spaces (ind * 4) ++
          renderFields ind k2 v2 kvs from by rw [renderFields.eq_def]]
        rw [renderString]
        simp only [List.cons_append, List.append_assoc, List.singleton_append,
          List.nil_append]
        simp only [parseFields]
        simp only [parseStringBody_escape, skipWs_not_ws ':' _ (by decide),
          skipWs_space, skipWs_render]
        rw [ihV v ind (',' :: ('\n' :: (spaces (ind * 4) ++
          (renderFields ind k2 v2 kvs ++ ('\n' :: (spaces m ++
            (cbrace :: rest))))))) hfV ((noDigitHead_cons _ _).mpr (by decide))]
        have ihF2 := ihF k2 v2 kvs ind m rest hfF
        simp only [List.cons_append, List.append_assoc] at ihF2
        simp only [skipWs_not_ws ',' _ (by decide), skipWs_newline,
          skipWs_spaces, skipWs_renderFields, ihF2]
        simp [string_mk_data]

theorem spaces_length (n : Nat) : (spaces n).length = n := by
  induction n <;> simp [spaces, *]

theorem json_sizeOf_pos (v : Json) : 1 ≤ sizeOf v := by
  cases v <;> simp_arith

theorem jlist_sizeOf_pos (xs : List Json) : 1 ≤ sizeOf xs := by
  cases xs <;> simp_arith

theorem fuel_le_render_all : ∀ n : Nat,
    (∀ (ind : Nat) (v : Json), sizeOf v ≤ n →
      fuelV v ≤ (render ind v).length + 1) ∧
    (∀ (ind : Nat) (x : Json) (xs : List Json), sizeOf x + sizeOf xs ≤ n →
      fuelItems x xs ≤ (renderItems ind x xs).length + 2) ∧
    (∀ (ind : Nat) (k : String) (v : Json) (kvs : List (String × Json)),
      sizeOf v + sizeOf kvs ≤ n →
      fuelFields v kvs ≤ (renderFields ind k v kvs).length + 2) := by
  intro n
  induction n with
  | zero =>
    refine ⟨fun ind v hv => absurd hv ?_, fun ind x xs hx => absurd hx ?_,
      fun ind k v kvs hv => absurd hv ?_⟩
    · have := json_sizeOf_pos v; omega
    · have := json_sizeOf_pos x; omega
    · have := json_sizeOf_pos v; omega
  | succ n ih =>
    obtain ⟨ihV, ihI, ihF⟩ := ih
    refine ⟨?_, ?_, ?_⟩
    · intro ind v hv
      cases v with
      | null => simp only [fuelV]; omega
      | bool b => cases b <;> (simp only [fuelV]; omega)
      | num m => simp only [fuelV]; omega
      | str s => simp only [fuelV]; omega
      | arr xs =>
        cases xs with
        | nil => simp only [fuelV]; omega
        | cons x xs =>
          have hsz : sizeOf x + sizeOf xs ≤ n := by
            simp at hv; omega
          have hI := ihI (ind + 1) x xs hsz
          have hlen : (renderItems (ind + 1) x xs).length + 2 ≤
              (render ind (.arr (x :: xs))).length := by
            rw [show render ind (.arr (x :: xs)) = '[' :: '\n' ::
              spaces ((ind + 1) * 4) ++ renderItems (ind + 1) x xs ++ '\n' ::
              spaces (ind * 4) ++ [']'] from by rw [render.eq_def]]
            simp [spaces_length]
            omega
          simp only [fuelV]
          omega
      | obj kvs =>
        rcases kvs with - | ⟨⟨k, v⟩, kvs⟩
        · simp only [fuelV]; omega
        · have hsz : sizeOf v + sizeOf kvs ≤ n := by
            simp at hv; omega
          have hF := ihF (ind + 1) k v kvs hsz
          have hlen : (renderFields (ind + 1) k v kvs).length + 2 ≤
              (render ind (.obj ((k, v) :: kvs))).length := by
            rw [show render ind (.obj ((k, v) :: kvs)) = obrace :: '\n' ::
              spaces ((ind + 1) * 4) ++ renderFields (ind + 1) k v kvs ++
              '\n' :: spaces (ind * 4) ++ [cbrace] from by rw [render.eq_def]]
            simp [spaces_length]
            omega
          simp only [fuelV]
          omega
    · intro ind x xs hx
      cases xs with
      | nil =>
        have hszx : sizeOf x ≤ n := by
          have := jlist_sizeOf_pos ([] : List Json)
          omega
        have hV := ihV ind x hszx
        rw [show renderItems ind x [] = render ind x from by
          rw [renderItems.eq_def]]
        simp only [fuelItems]
        omega
      | cons y ys =>
        have hszx : sizeOf x ≤ n := by
          have := jlist_sizeOf_pos (y :: ys); omega
        have hszy : sizeOf y + sizeOf ys ≤ n := by
          simp at hx; omega
        have hV := ihV ind x hszx
        have hI := ihI ind y ys hszy
        have hlen : (renderItems ind x (y :: ys)).length =
            (render ind x).length + 2 + ind * 4 +
              (renderItems ind y ys).length := by
          rw [show renderItems ind x (y :: ys) = render ind x ++ ',' :: '\n' ::
            spaces (ind * 4) ++ renderItems ind y ys from by
            rw [renderItems.eq_def]]
          simp [spaces_length]
          omega
        simp only [fuelItems]
        omega
    · intro ind k v kvs hv
      rcases kvs with - | ⟨⟨k2, v2⟩, kvs⟩
      · have hszv : sizeOf v ≤ n := by
          have : 1 ≤ sizeOf ([] : List (String × Json)) := by simp_arith
          omega
        have hV := ihV ind v hszv
        have hlen : (render ind v).length ≤
            (renderFields ind k v []).length := by
          rw [show renderFields ind k v [] = renderString k ++ ':' :: ' ' ::
            render ind v from by rw [renderFields.eq_def]]
          simp
          omega
        simp only [fuelFields]
        omega
      · have hszv : sizeOf v ≤ n := by
          simp at hv; omega
        have hszr : sizeOf v2 + sizeOf kvs ≤ n := by
          simp at hv; omega
        have hV := ihV ind v hszv
        have hF := ihF ind k2 v2 kvs hszr
        have hlen : (render ind v).length + (renderFields ind k2 v2 kvs).length
            + 2 ≤ (renderFields ind k v ((k2, v2) :: kvs)).length := by
          rw [show renderFields ind k v ((k2, v2) :: kvs) = renderString k ++
            ':' :: ' ' :: render ind v ++ ',' :: '\n' :: spaces (ind * 4) ++
            renderFields ind k2 v2 kvs from by rw [renderFields.eq_def]]
          simp [spaces_length]
          omega
        simp only [fuelFields]
        omega


theorem parseJson_dumps (v : Json) : parseJson (dumps v) = some v := by
  rw [parseJson, dumps]
  have hdata : (String.mk (render 0 v)).data = render 0 v := rfl
  rw [hdata]
  have hfuel : fuelV v ≤ (render 0 v).length + 1 :=
    (fuel_le_render_all (sizeOf v)).1 0 v (le_refl _)
  have hrt := (parse_render_all ((render 0 v).length + 1)).1 v 0 [] hfuel
    trivial
  rw [List.append_nil] at hrt
  rw [hrt]
  simp [skipWs]

/-- C7: for every successful run, the file `main` writes parses back as a
JSON array identical in content and element order to the in-memory
accumulator — serialize (`json.dump` with `indent=4, ensure_ascii=False`)
followed by parse is the identity on the record list. -/
theorem write_read_roundtrip (inp : Input) (r : Run) (arts : List Json)
    (hrun : mainRun inp = some r) (hok : r.result = .ok arts) :
    ∃ s, r.file = some s ∧ parseJson s = some (.arr arts) := by
  simp only [mainRun] at hrun
  split at hrun
  · obtain rfl := Option.some.inj hrun
    cases hok
  · split at hrun
    · obtain rfl := Option.some.inj hrun
      cases hok
    · split at hrun
      · obtain rfl := Option.some.inj hrun
        cases hok
      · split at hrun
        · cases hrun
        · obtain rfl := Option.some.inj hrun
          cases hok
        · obtain rfl := Option.some.inj hrun
          obtain rfl : _ = arts := Except.ok.inj hok
          exact ⟨dumps (.arr _), rfl, parseJson_dumps _⟩

theorem write_read_roundtrip_witness :
    ∃ s, (some (dumps (.arr (rsAt 1 ++ rsAt 2))) : Option String) = some s ∧
      parseJson s = some (.arr (rsAt 1 ++ rsAt 2)) :=
  write_read_roundtrip inputTwoPages
    { result := .ok (rsAt 1 ++ rsAt 2),
      events := [.resolveCredential, .readQueryFile, .httpRequest 1,
        .httpRequest 2, .writeOutput],
      file := some (dumps (.arr (rsAt 1 ++ rsAt 2))) }
    (rsAt 1 ++ rsAt 2) rfl rfl

/-- C8: for every successful run — whatever content, if any, previously sat
at the output path — the file afterwards holds exactly the accumulator
serialized as one indented JSON array (`dumps (.arr arts)`), so the old
content is replaced outright, never appended to; and the escaper leaves
every non-ASCII character literal rather than producing an escape
sequence. -/
theorem writer_contract :
    (∀ (inp : Input) (r : Run) (arts : List Json),
      mainRun inp = some r → r.result = .ok arts →
      r.file = some (dumps (.arr arts))) ∧
    (∀ c : Char, 128 ≤ c.toNat → escapeChar c = [c]) := by
  refine ⟨?_, ?_⟩
  · intro inp r arts hrun hok
    simp only [mainRun] at hrun
    split at hrun
    · obtain rfl := Option.some.inj hrun
      cases hok
    · split at hrun
      · obtain rfl := Option.some.inj hrun
        cases hok
      · split at hrun
        · obtain rfl := Option.some.inj hrun
          cases hok
        · split at hrun
          · cases hrun
          · obtain rfl := Option.some.inj hrun
            cases hok
          · obtain rfl := Option.some.inj hrun
            obtain rfl : _ = arts := Except.ok.inj hok
            rfl
  · intro c hc
    rw [escapeChar]
    split_ifs with h1 h2 h3 h4 h5 h6 h7 h8
    · exact absurd hc (by subst h1; decide)
    · exact absurd hc (by subst h2; decide)
    · exact absurd hc (by subst h3; decide)
    · exact absurd hc (by subst h4; decide)
    · exact absurd hc (by subst h5; decide)
    · exact absurd hc (by subst h6; decide)
    · exact absurd hc (by subst h7; decide)
    · exact absurd hc (by omega)
    · rfl

theorem writer_contract_witness :
    (some (dumps (.arr (rsAt 1 ++ rsAt 2))) : Option String) =
      some (dumps (.arr (rsAt 1 ++ rsAt 2))) ∧
    escapeChar 'ü' = ['ü'] :=
  ⟨writer_contract.1 inputTwoPages
    { result := .ok (rsAt 1 ++ rsAt 2),
      events := [.resolveCredential, .readQueryFile, .httpRequest 1,
        .httpRequest 2, .writeOutput],
      file := some (dumps (.arr (rsAt 1 ++ rsAt 2))) }
    (rsAt 1 ++ rsAt 2) rfl rfl,
   writer_contract.2 'ü' (by decide)⟩

end Napi
